import Mathlib

/-!
Shallow embedding of `backend/api/views.py`: the HOS stop-planning loop that
lives inside `calculate_route`, the ELD log generator `generate_eld_logs`,
and the duty-status mapping `get_status_from_stop`.

Distances (miles) and durations (hours) are modelled as exact rationals; the
Python code uses floats, and the spec scopes floating-point boundary noise out
of the intended semantics.  The wall clock of the log generator is modelled as
a rational offset, in hours, from the moment of invocation (the concrete
calendar formatting is outside what any claim mentions).  The while-loop is
embedded with an explicit iteration budget (`fuel`); `none` means the budget
ran out before the loop finished, and a sufficiency theorem shows the budget
chosen by `calculate_route_stops` never runs out.
-/

/-- A stop record, as built by the planning loop: a type tag string (the
Python code tags stops with the strings `"Pickup"`, `"Dropoff"`,
`"Fuel Stop"`, `"30-min Break"`, `"10-hour Rest"`), an optional location
(present only on Pickup and Dropoff), a duration in hours and the cumulative
distance from the start in miles. -/
structure Stop where
  type : String
  location : Option String
  duration : ℚ
  distance_from_start : ℚ
deriving DecidableEq

/-- A generated ELD log entry: time offset (hours since invocation), duty
status, location (or the sentinel `"En Route"`), the rounded cumulative
`hours_driven` counter, and the remarks string (the stop's type tag). -/
structure LogEntry where
  timeOffsetHours : ℚ
  status : String
  location : String
  hours_driven : ℚ
  remarks : String
deriving DecidableEq

/-- Does the pattern occur at the very front of the list? -/
def isPrefList : List Char → List Char → Bool
  | [], _ => true
  | _ :: _, [] => false
  | a :: as, b :: bs => a == b && isPrefList as bs

/-- Does the pattern occur as a contiguous segment of the list? -/
def hasSubList (pat : List Char) : List Char → Bool
  | [] => pat.isEmpty
  | b :: bs => isPrefList pat (b :: bs) || hasSubList pat bs

/-- Python's substring test `pat in s` on strings. -/
def strContainsStr (s pat : String) : Bool := hasSubList pat.data s.data

/-- The Pickup stop appended before the loop (duration 1 h, distance 0). -/
def pickupStop (pickup_location : String) : Stop :=
  ⟨"Pickup", some pickup_location, 1, 0⟩

/-- The Dropoff stop appended after the loop (duration 1 h, distance =
`total_distance`). -/
def dropoffStop (dropoff_location : String) (total_distance : ℚ) : Stop :=
  ⟨"Dropoff", some dropoff_location, 1, total_distance⟩

/-- The `while remaining_distance > 0` loop of `calculate_route`, embedded
with an explicit iteration budget.  Arguments after the budget: remaining
distance `r`, `current_hours` `ch`, `hours_driven` (since last break) `hd`,
`distance_since_fuel` `dsf`.  Returns the stops emitted inside the loop
together with the list of per-iteration `drive_hours` values; `none` when the
budget is exhausted with distance still remaining.  Each iteration checks, in
source order: fuel (`distance_since_fuel >= 1000`, emit `"Fuel Stop"`, reset
`distance_since_fuel`), break (`hours_driven >= 8`, emit `"30-min Break"`,
reset `hours_driven`), rest (`current_hours >= 11`, emit `"10-hour Rest"`,
reset `current_hours` and `hours_driven`), then drives
`min 2 (r / 60)` hours at 60 mph. -/
def loopGo (total : ℚ) : ℕ → ℚ → ℚ → ℚ → ℚ → Option (List Stop × List ℚ)
  | 0, r, _, _, _ => if 0 < r then none else some ([], [])
  | n + 1, r, ch, hd, dsf =>
    if 0 < r then
      match loopGo total n (r - min 2 (r / 60) * 60)
          ((if 11 ≤ ch then 0 else ch) + min 2 (r / 60))
          ((if 11 ≤ ch then 0 else if 8 ≤ hd then 0 else hd) + min 2 (r / 60))
          ((if 1000 ≤ dsf then 0 else dsf) + min 2 (r / 60) * 60) with
      | none => none
      | some (st, dr) =>
        some ((if 1000 ≤ dsf then [⟨"Fuel Stop", none, 1/2, total - r⟩] else []) ++
            ((if 8 ≤ hd then [⟨"30-min Break", none, 1/2, total - r⟩] else []) ++
             ((if 11 ≤ ch then [⟨"10-hour Rest", none, 10, total - r⟩] else []) ++ st)),
          min 2 (r / 60) :: dr)
    else some ([], [])

/-- Iteration budget used by `calculate_route_stops`: each iteration removes
`min 120 r` miles, so `⌈total / 120⌉` iterations suffice; one more for slack. -/
def planFuel (total_distance : ℚ) : ℕ := (⌈total_distance / 120⌉).toNat + 1

/-- The stop-planning portion of `calculate_route` (views.py lines 33-90):
Pickup stop, the while loop, Dropoff stop.  `total_distance` and
`current_cycle_used` are the pre-resolved inputs the core receives; the
geocoding glue that produces `total_distance` is outside the core. -/
def calculate_route_stops (total_distance current_cycle_used : ℚ)
    (pickup_location dropoff_location : String) : Option (List Stop) :=
  match loopGo total_distance (planFuel total_distance)
      total_distance current_cycle_used 0 0 with
  | none => none
  | some (st, _) =>
    some (pickupStop pickup_location ::
      (st ++ [dropoffStop dropoff_location total_distance]))

/-- Round half to even on a rational, as Python's `round` does on the exact
value. -/
def rhe (q : ℚ) : ℤ :=
  if Int.fract q = 1/2 then (if Even ⌊q⌋ then ⌊q⌋ else ⌊q⌋ + 1) else round q

/-- Python's `round(x, 1)`. -/
def roundTo1 (q : ℚ) : ℚ := ((rhe (q * 10) : ℤ) : ℚ) / 10

/-- `get_status_from_stop` (views.py lines 197-208): map a stop type string
to an ELD duty status via Python substring tests. -/
def get_status_from_stop (stop_type : String) : String :=
  if strContainsStr stop_type "Rest" then "OFF"
  else if strContainsStr stop_type "Break" then "SB"
  else if stop_type ∈ ["Pickup", "Dropoff"] then "ON"
  else if strContainsStr stop_type "Fuel" then "ON"
  else "D"

/-- The per-stop body of `generate_eld_logs`: current time offset `t`,
running `current_hours` counter `ch`.  Emits one entry per stop, advances
the clock by the stop's duration, and adds the duration to the counter
unless the stop's type contains `"Rest"`. -/
def genLogsGo : ℚ → ℚ → List Stop → List LogEntry
  | _, _, [] => []
  | t, ch, s :: rest =>
    ⟨t, get_status_from_stop s.type, s.location.getD "En Route",
      roundTo1 ch, s.type⟩ ::
    genLogsGo (t + s.duration)
      (if strContainsStr s.type "Rest" then ch else ch + s.duration) rest

/-- `generate_eld_logs` (views.py lines 172-194).  The `total_distance`
parameter is accepted and ignored, exactly as in the source. -/
def generate_eld_logs (stops : List Stop) (total_distance initial_cycle : ℚ) :
    List LogEntry :=
  genLogsGo 0 initial_cycle stops

/-- The running `hours_driven` counter of the log generator, described as in
the spec: it starts at `initial_cycle` and each stop before position `i`
whose type does not contain `"Rest"` adds its duration. -/
def hoursBefore (initial_cycle : ℚ) (stops : List Stop) (i : ℕ) : ℚ :=
  initial_cycle +
    (((stops.take i).filter (fun s => ! strContainsStr s.type "Rest")).map
      (fun s => s.duration)).sum

/-- Virtual origin used to state the fuel-spacing invariant: a car starts
with a full tank at distance 0. -/
def fuelOrigin : Stop := ⟨"Origin", none, 0, 0⟩

/-! ## Arithmetic helpers -/

theorem min_drive (r : ℚ) : min 2 (r / 60) * 60 = min 120 r := by
  rcases le_total 2 (r / 60) with h | h
  · rw [min_eq_left h, min_eq_left]
    · norm_num
    · calc (120 : ℚ) = 2 * 60 := by norm_num
        _ ≤ (r / 60) * 60 := by nlinarith
        _ = r := by field_simp
  · rw [min_eq_right h, min_eq_right]
    · field_simp
    · calc r = (r / 60) * 60 := by field_simp
        _ ≤ 2 * 60 := by nlinarith
        _ = 120 := by norm_num

theorem mem_ite_singleton {c : Prop} [Decidable c] {x s : Stop}
    (h : s ∈ (if c then [x] else [])) : s = x := by
  by_cases hc : c
  · rw [if_pos hc] at h
    simpa using h
  · rw [if_neg hc] at h
    simp at h

/-! ## Fuel sufficiency: the loop budget chosen by the planner never runs
out, which is the termination argument of the while loop. -/

theorem ceil_next_le (r : ℚ) (n : ℕ) (h : (⌈r / 120⌉).toNat ≤ n + 1)
    (hr : 0 < r) : (⌈(r - min 2 (r / 60) * 60) / 120⌉).toNat ≤ n := by
  rw [min_drive]
  rcases le_total r 120 with h120 | h120
  · rw [min_eq_right h120]
    simp
  · rw [min_eq_left h120]
    have heq : (r - 120) / 120 = r / 120 - 1 := by ring
    rw [heq, Int.ceil_sub_one]
    have hpos : (1 : ℤ) ≤ ⌈r / 120⌉ := by
      rw [Int.le_ceil_iff]
      push_cast
      nlinarith
    omega

theorem loopGo_isSome (d : ℚ) :
    ∀ (n : ℕ) (r ch hd dsf : ℚ), (⌈r / 120⌉).toNat ≤ n →
      (loopGo d n r ch hd dsf).isSome = true := by
  intro n
  induction n with
  | zero =>
    intro r ch hd dsf h
    have hle : ⌈r / 120⌉ ≤ 0 := by omega
    have hr : r ≤ 0 := by
      have hq : r / 120 ≤ (0 : ℚ) := by exact_mod_cast Int.ceil_le.mp hle
      nlinarith
    simp [loopGo, not_lt.mpr hr]
  | succ n ih =>
    intro r ch hd dsf h
    by_cases hr : 0 < r
    · have hrec := ih (r - min 2 (r / 60) * 60)
        ((if 11 ≤ ch then 0 else ch) + min 2 (r / 60))
        ((if 11 ≤ ch then 0 else if 8 ≤ hd then 0 else hd) + min 2 (r / 60))
        ((if 1000 ≤ dsf then 0 else dsf) + min 2 (r / 60) * 60)
        (ceil_next_le r n h hr)
      rw [Option.isSome_iff_exists] at hrec
      obtain ⟨val, hval⟩ := hrec
      obtain ⟨st, dr⟩ := val
      simp only [loopGo, if_pos hr, hval, Option.isSome_some]
    · simp [loopGo, hr]

/-! ## Inversion lemmas for one loop iteration -/

theorem next_r_nonneg (r : ℚ) : 0 ≤ r → 0 ≤ r - min 2 (r / 60) * 60 := by
  intro _
  rw [min_drive]
  have := min_le_right (120 : ℚ) r
  linarith

theorem next_r_lt (r : ℚ) (hr : 0 < r) : r - min 2 (r / 60) * 60 < r := by
  rw [min_drive]
  have : (0 : ℚ) < min 120 r := lt_min (by norm_num) hr
  linarith

theorem drive_dist_le (r : ℚ) : min 2 (r / 60) * 60 ≤ 120 := by
  rw [min_drive]
  exact min_le_left 120 r

theorem loopGo_exit (d : ℚ) (n : ℕ) (r ch hd dsf : ℚ) (st : List Stop)
    (dr : List ℚ) (hr : ¬ 0 < r) (h : loopGo d n r ch hd dsf = some (st, dr)) :
    st = [] ∧ dr = [] := by
  cases n with
  | zero =>
    simp [loopGo, hr] at h
    exact ⟨h.1, h.2⟩
  | succ n =>
    simp [loopGo, hr] at h
    exact ⟨h.1, h.2⟩

theorem loopGo_succ_inv (d : ℚ) (n : ℕ) (r ch hd dsf : ℚ) (st : List Stop)
    (dr : List ℚ) (hr : 0 < r)
    (h : loopGo d (n + 1) r ch hd dsf = some (st, dr)) :
    ∃ st2 dr2, loopGo d n (r - min 2 (r / 60) * 60)
        ((if 11 ≤ ch then 0 else ch) + min 2 (r / 60))
        ((if 11 ≤ ch then 0 else if 8 ≤ hd then 0 else hd) + min 2 (r / 60))
        ((if 1000 ≤ dsf then 0 else dsf) + min 2 (r / 60) * 60) = some (st2, dr2) ∧
      st = (if 1000 ≤ dsf then [⟨"Fuel Stop", none, 1/2, d - r⟩] else []) ++
          ((if 8 ≤ hd then [⟨"30-min Break", none, 1/2, d - r⟩] else []) ++
           ((if 11 ≤ ch then [⟨"10-hour Rest", none, 10, d - r⟩] else []) ++ st2)) ∧
      dr = min 2 (r / 60) :: dr2 := by
  simp only [loopGo, if_pos hr] at h
  split at h
  · exact absurd h (by simp)
  · rename_i st2 dr2 heq
    have h2 := Option.some.inj h
    exact ⟨st2, dr2, heq, (congrArg Prod.fst h2).symm, (congrArg Prod.snd h2).symm⟩

/-! ## Chain helpers for the distance monotonicity invariant -/

theorem chain_const_append (p : ℚ) (l1 l2 : List Stop)
    (h1 : ∀ s ∈ l1, s.distance_from_start = p)
    (h2 : ∀ s ∈ l2, p ≤ s.distance_from_start)
    (hc : List.Chain' (fun a b => a.distance_from_start ≤ b.distance_from_start) l2) :
    List.Chain' (fun a b => a.distance_from_start ≤ b.distance_from_start)
      (l1 ++ l2) := by
  induction l1 with
  | nil => simpa using hc
  | cons x xs ih =>
    rw [List.cons_append, List.chain'_cons']
    constructor
    · intro y hy
      have hx : x.distance_from_start = p := h1 x (by simp)
      have hy2 : y ∈ xs ++ l2 := List.mem_of_mem_head? hy
      rcases List.mem_append.mp hy2 with hm | hm
      · rw [hx, h1 y (List.mem_cons_of_mem x hm)]
      · rw [hx]
        exact h2 y hm
    · exact ih (fun s hs => h1 s (by simp [hs]))

theorem chain_append_singleton (l : List Stop) (q : Stop)
    (h : ∀ s ∈ l, s.distance_from_start ≤ q.distance_from_start)
    (hc : List.Chain' (fun a b => a.distance_from_start ≤ b.distance_from_start) l) :
    List.Chain' (fun a b => a.distance_from_start ≤ b.distance_from_start)
      (l ++ [q]) := by
  induction l with
  | nil => simp
  | cons x xs ih =>
    rw [List.chain'_cons'] at hc
    rw [List.cons_append, List.chain'_cons']
    constructor
    · intro y hy
      cases xs with
      | nil =>
        simp at hy
        subst hy
        exact h x (by simp)
      | cons z zs =>
        simp at hy
        subst hy
        exact hc.1 z (by simp)
    · exact ih (fun s hs => h s (by simp [hs])) hc.2

/-! ## Loop invariants: distance bounds and monotonicity of
`distance_from_start` over the stops emitted inside the loop -/

theorem loopGo_bounds (d : ℚ) :
    ∀ (n : ℕ) (r ch hd dsf : ℚ) (st : List Stop) (dr : List ℚ),
      loopGo d n r ch hd dsf = some (st, dr) →
      (∀ s ∈ st, d - r ≤ s.distance_from_start ∧ s.distance_from_start < d) ∧
      List.Chain' (fun a b => a.distance_from_start ≤ b.distance_from_start) st := by
  intro n
  induction n with
  | zero =>
    intro r ch hd dsf st dr h
    by_cases hr : 0 < r
    · simp [loopGo, hr] at h
    · obtain ⟨h1, _⟩ := loopGo_exit d 0 r ch hd dsf st dr hr h
      subst h1
      simp
  | succ n ih =>
    intro r ch hd dsf st dr h
    by_cases hr : 0 < r
    · obtain ⟨st2, dr2, heq, hst, _⟩ := loopGo_succ_inv d n r ch hd dsf st dr hr h
      obtain ⟨ihb, ihc⟩ := ih _ _ _ _ _ _ heq
      have hrle : r - min 2 (r / 60) * 60 < r := next_r_lt r hr
      have hb2 : ∀ s ∈ st2,
          d - r ≤ s.distance_from_start ∧ s.distance_from_start < d := by
        intro s hs
        obtain ⟨hlo, hhi⟩ := ihb s hs
        exact ⟨by linarith, hhi⟩
      constructor
      · intro s hs
        rw [hst] at hs
        rcases List.mem_append.mp hs with hm | hm
        · have := mem_ite_singleton hm
          subst this
          exact ⟨le_refl _, by simp; linarith⟩
        rcases List.mem_append.mp hm with hm2 | hm2
        · have := mem_ite_singleton hm2
          subst this
          exact ⟨le_refl _, by simp; linarith⟩
        rcases List.mem_append.mp hm2 with hm3 | hm3
        · have := mem_ite_singleton hm3
          subst this
          exact ⟨le_refl _, by simp; linarith⟩
        · exact hb2 s hm3
      · rw [hst]
        have hassoc :
            (if 1000 ≤ dsf then [(⟨"Fuel Stop", none, 1/2, d - r⟩ : Stop)] else []) ++
              ((if 8 ≤ hd then [(⟨"30-min Break", none, 1/2, d - r⟩ : Stop)] else []) ++
               ((if 11 ≤ ch then [(⟨"10-hour Rest", none, 10, d - r⟩ : Stop)] else []) ++ st2)) =
            ((if 1000 ≤ dsf then [(⟨"Fuel Stop", none, 1/2, d - r⟩ : Stop)] else []) ++
              ((if 8 ≤ hd then [(⟨"30-min Break", none, 1/2, d - r⟩ : Stop)] else []) ++
               (if 11 ≤ ch then [(⟨"10-hour Rest", none, 10, d - r⟩ : Stop)] else []))) ++ st2 := by
          simp [List.append_assoc]
        rw [hassoc]
        apply chain_const_append (d - r)
        · intro s hs
          rcases List.mem_append.mp hs with hm | hm
          · rw [mem_ite_singleton hm]
          rcases List.mem_append.mp hm with hm2 | hm2
          · rw [mem_ite_singleton hm2]
          · rw [mem_ite_singleton hm2]
        · intro s hs
          exact (hb2 s hs).1
        · exact ihc
    · obtain ⟨h1, _⟩ := loopGo_exit d (n + 1) r ch hd dsf st dr hr h
      subst h1
      simp

/-! ## Loop invariant: types of stops emitted inside the loop -/

theorem loopGo_types (d : ℚ) :
    ∀ (n : ℕ) (r ch hd dsf : ℚ) (st : List Stop) (dr : List ℚ),
      loopGo d n r ch hd dsf = some (st, dr) →
      ∀ s ∈ st, s.type = "Fuel Stop" ∨ s.type = "30-min Break" ∨
        s.type = "10-hour Rest" := by
  intro n
  induction n with
  | zero =>
    intro r ch hd dsf st dr h
    by_cases hr : 0 < r
    · simp [loopGo, hr] at h
    · obtain ⟨h1, _⟩ := loopGo_exit d 0 r ch hd dsf st dr hr h
      subst h1
      simp
  | succ n ih =>
    intro r ch hd dsf st dr h
    by_cases hr : 0 < r
    · obtain ⟨st2, dr2, heq, hst, _⟩ := loopGo_succ_inv d n r ch hd dsf st dr hr h
      intro s hs
      rw [hst] at hs
      rcases List.mem_append.mp hs with hm | hm
      · rw [mem_ite_singleton hm]
        left
        rfl
      rcases List.mem_append.mp hm with hm2 | hm2
      · rw [mem_ite_singleton hm2]
        right
        left
        rfl
      rcases List.mem_append.mp hm2 with hm3 | hm3
      · rw [mem_ite_singleton hm3]
        right
        right
        rfl
      · exact ih _ _ _ _ _ _ heq s hm3
    · obtain ⟨h1, _⟩ := loopGo_exit d (n + 1) r ch hd dsf st dr hr h
      subst h1
      simp

/-! ## Loop invariant: the per-iteration drive_hours values, multiplied by
60, sum to the remaining distance at loop entry -/

theorem loopGo_sum (d : ℚ) :
    ∀ (n : ℕ) (r ch hd dsf : ℚ) (st : List Stop) (dr : List ℚ), 0 ≤ r →
      loopGo d n r ch hd dsf = some (st, dr) →
      (dr.map (fun h => h * 60)).sum = r := by
  intro n
  induction n with
  | zero =>
    intro r ch hd dsf st dr hr0 h
    by_cases hr : 0 < r
    · simp [loopGo, hr] at h
    · obtain ⟨_, h2⟩ := loopGo_exit d 0 r ch hd dsf st dr hr h
      subst h2
      simp
      linarith [not_lt.mp hr]
  | succ n ih =>
    intro r ch hd dsf st dr hr0 h
    by_cases hr : 0 < r
    · obtain ⟨st2, dr2, heq, _, hdr⟩ := loopGo_succ_inv d n r ch hd dsf st dr hr h
      have ihs := ih _ _ _ _ _ _ (next_r_nonneg r hr0) heq
      subst hdr
      simp only [List.map_cons, List.sum_cons, ihs]
      ring
    · obtain ⟨_, h2⟩ := loopGo_exit d (n + 1) r ch hd dsf st dr hr h
      subst h2
      simp
      linarith [not_lt.mp hr]

/-! ## Loop invariant: spacing of fuel stops -/

theorem filter_ite_singleton_no {c : Prop} [Decidable c] {x : Stop}
    {p : Stop → Bool} (hp : p x = false) :
    (if c then [x] else []).filter p = [] := by
  split
  · simp [List.filter, hp]
  · rfl

theorem filter_ite_singleton_yes {x : Stop} {p : Stop → Bool}
    (hp : p x = true) : [x].filter p = [x] := by
  simp [List.filter, hp]

theorem loopGo_fuel_chain (d : ℚ) :
    ∀ (n : ℕ) (r ch hd dsf : ℚ) (st : List Stop) (dr : List ℚ) (base : Stop),
      loopGo d n r ch hd dsf = some (st, dr) →
      dsf = (d - r) - base.distance_from_start →
      dsf < 1120 →
      List.Chain
        (fun a b => 1000 ≤ b.distance_from_start - a.distance_from_start ∧
          b.distance_from_start - a.distance_from_start < 1120)
        base (st.filter (fun s => s.type == "Fuel Stop")) := by
  intro n
  induction n with
  | zero =>
    intro r ch hd dsf st dr base h _ _
    by_cases hr : 0 < r
    · simp [loopGo, hr] at h
    · obtain ⟨h1, _⟩ := loopGo_exit d 0 r ch hd dsf st dr hr h
      subst h1
      exact List.Chain.nil
  | succ n ih =>
    intro r ch hd dsf st dr base h hpos hlt
    by_cases hr : 0 < r
    · obtain ⟨st2, dr2, heq, hst, _⟩ := loopGo_succ_inv d n r ch hd dsf st dr hr h
      subst hst
      rw [List.filter_append, List.filter_append, List.filter_append]
      rw [filter_ite_singleton_no (p := fun s => s.type == "Fuel Stop")
        (x := ⟨"30-min Break", none, 1/2, d - r⟩) (by rfl)]
      rw [filter_ite_singleton_no (p := fun s => s.type == "Fuel Stop")
        (x := ⟨"10-hour Rest", none, 10, d - r⟩) (by rfl)]
      rw [List.nil_append, List.nil_append]
      have hdle : min 2 (r / 60) * 60 ≤ 120 := drive_dist_le r
      by_cases hf : 1000 ≤ dsf
      · rw [if_pos hf, filter_ite_singleton_yes (by rfl)]
        rw [List.cons_append, List.nil_append]
        apply List.Chain.cons
        · constructor
          · simpa [hpos] using hf
          · simpa [hpos] using hlt
        · apply ih _ _ _ _ _ _ (⟨"Fuel Stop", none, 1/2, d - r⟩ : Stop) heq
          · rw [if_pos hf]
            show (0 : ℚ) + min 2 (r / 60) * 60 =
              d - (r - min 2 (r / 60) * 60) - (d - r)
            ring
          · rw [if_pos hf]
            linarith
      · rw [if_neg hf, List.filter_nil, List.nil_append]
        apply ih _ _ _ _ _ _ base heq
        · rw [if_neg hf, hpos]
          ring
        · rw [if_neg hf]
          push_neg at hf
          linarith
    · obtain ⟨h1, _⟩ := loopGo_exit d (n + 1) r ch hd dsf st dr hr h
      subst h1
      exact List.Chain.nil

/-! ## Rounding: bounds and monotonicity of round-half-to-even -/

theorem le_rhe (q : ℚ) : ⌊q⌋ ≤ rhe q := by
  unfold rhe
  split
  · split
    · exact le_refl _
    · omega
  · rw [round_eq]
    exact Int.floor_le_floor (by linarith)

theorem rhe_le (q : ℚ) : rhe q ≤ ⌊q⌋ + 1 := by
  unfold rhe
  split
  · split
    · omega
    · exact le_refl _
  · rw [round_eq]
    have h1 : q + 1/2 < (⌊q⌋ : ℚ) + 2 := by
      have := Int.lt_floor_add_one q
      linarith
    have h2 : ⌊q + 1/2⌋ < ⌊q⌋ + 2 := Int.floor_lt.mpr (by push_cast; linarith)
    omega

theorem floor_add_fract (q : ℚ) : (⌊q⌋ : ℚ) + Int.fract q = q := by
  unfold Int.fract
  ring

theorem rhe_mono {q r : ℚ} (h : q ≤ r) : rhe q ≤ rhe r := by
  rcases lt_or_eq_of_le (Int.floor_le_floor h) with hlt | heq
  · calc rhe q ≤ ⌊q⌋ + 1 := rhe_le q
      _ ≤ ⌊r⌋ := by omega
      _ ≤ rhe r := le_rhe r
  · have hfr : Int.fract q ≤ Int.fract r := by
      unfold Int.fract
      rw [heq]
      exact sub_le_sub_right h _
    unfold rhe
    by_cases h1 : Int.fract q = 1/2
    · by_cases h2 : Int.fract r = 1/2
      · rw [if_pos h1, if_pos h2, heq]
      · rw [if_pos h1, if_neg h2]
        have hgt : 1/2 < Int.fract r := lt_of_le_of_ne (h1 ▸ hfr) (Ne.symm h2)
        have hr1 : (⌊q⌋ + 1 : ℤ) ≤ round r := by
          rw [round_eq, Int.le_floor]
          have hfl := floor_add_fract r
          rw [← heq] at hfl
          push_cast
          linarith
        split
        · omega
        · omega
    · by_cases h2 : Int.fract r = 1/2
      · rw [if_neg h1, if_pos h2]
        have hlt2 : Int.fract q < 1/2 := lt_of_le_of_ne (h2 ▸ hfr) h1
        have hq1 : round q ≤ ⌊q⌋ := by
          rw [round_eq]
          have hfl := floor_add_fract q
          have h3 : ⌊q + 1/2⌋ < ⌊q⌋ + 1 := Int.floor_lt.mpr (by push_cast; linarith)
          omega
        rw [heq] at hq1
        split
        · omega
        · omega
      · rw [if_neg h1, if_neg h2, round_eq, round_eq]
        exact Int.floor_le_floor (by linarith)

theorem roundTo1_mono {q r : ℚ} (h : q ≤ r) : roundTo1 q ≤ roundTo1 r := by
  unfold roundTo1
  have h1 : rhe (q * 10) ≤ rhe (r * 10) := rhe_mono (by linarith)
  have h2 : ((rhe (q * 10) : ℤ) : ℚ) ≤ ((rhe (r * 10) : ℤ) : ℚ) := by
    exact_mod_cast h1
  linarith

/-! ## Log generator lemmas -/

theorem genLogsGo_length (stops : List Stop) :
    ∀ t ch, (genLogsGo t ch stops).length = stops.length := by
  induction stops with
  | nil => intro t ch; rfl
  | cons s rest ih =>
    intro t ch
    simp only [genLogsGo, List.length_cons]
    rw [ih]

theorem genLogsGo_remarks (stops : List Stop) :
    ∀ t ch, (genLogsGo t ch stops).map (fun e => e.remarks) =
      stops.map (fun s => s.type) := by
  induction stops with
  | nil => intro t ch; rfl
  | cons s rest ih =>
    intro t ch
    simp only [genLogsGo, List.map_cons]
    rw [ih]

theorem genLogsGo_status (stops : List Stop) :
    ∀ t ch, (genLogsGo t ch stops).map (fun e => e.status) =
      stops.map (fun s => get_status_from_stop s.type) := by
  induction stops with
  | nil => intro t ch; rfl
  | cons s rest ih =>
    intro t ch
    simp only [genLogsGo, List.map_cons]
    rw [ih]

theorem hoursBefore_zero (ch : ℚ) (stops : List Stop) :
    hoursBefore ch stops 0 = ch := by
  simp [hoursBefore]

theorem hoursBefore_succ (ch : ℚ) (s : Stop) (rest : List Stop) (i : ℕ) :
    hoursBefore ch (s :: rest) (i + 1) =
      hoursBefore (if strContainsStr s.type "Rest" then ch else ch + s.duration)
        rest i := by
  unfold hoursBefore
  rw [List.take_succ_cons]
  cases hc : strContainsStr s.type "Rest"
  · rw [if_neg (by simp [hc])]
    simp only [List.filter_cons, hc, Bool.not_false, if_pos trivial]
    simp [List.map_cons, List.sum_cons]
    ring
  · rw [if_pos rfl]
    simp only [List.filter_cons, hc, Bool.not_true]
    simp

theorem genLogsGo_hours (stops : List Stop) :
    ∀ t ch, (genLogsGo t ch stops).map (fun e => e.hours_driven) =
      (List.range stops.length).map (fun i => roundTo1 (hoursBefore ch stops i)) := by
  induction stops with
  | nil => intro t ch; rfl
  | cons s rest ih =>
    intro t ch
    simp only [genLogsGo, List.map_cons, List.length_cons,
      List.range_succ_eq_map, List.map_map]
    congr 1
    · rw [hoursBefore_zero]
    · rw [ih]
      apply List.map_congr_left
      intro i _
      simp only [Function.comp_apply, hoursBefore_succ]

theorem genLogsGo_chain (stops : List Stop) :
    ∀ t ch, (∀ s ∈ stops, 0 ≤ s.duration) →
      List.Chain' (fun a b => a.hours_driven ≤ b.hours_driven)
        (genLogsGo t ch stops) := by
  induction stops with
  | nil => intro t ch _; exact List.chain'_nil
  | cons s rest ih =>
    intro t ch hdur
    cases rest with
    | nil => simp [genLogsGo]
    | cons s2 rest2 =>
      have hch : ch ≤ (if strContainsStr s.type "Rest" then ch
          else ch + s.duration) := by
        split
        · exact le_refl _
        · have := hdur s (by simp)
          linarith
      have h2 := ih (t + s.duration)
        (if strContainsStr s.type "Rest" then ch else ch + s.duration)
        (fun x hx => hdur x (by simp [hx]))
      simp only [genLogsGo] at h2 ⊢
      exact List.chain'_cons.mpr ⟨roundTo1_mono hch, h2⟩

/-! ## Evaluation helpers for concrete inputs -/

theorem planFuel_eval (d : ℚ) (z : ℤ) (h1 : (z : ℚ) - 1 < d / 120)
    (h2 : d / 120 ≤ (z : ℚ)) : planFuel d = z.toNat + 1 := by
  unfold planFuel
  rw [Int.ceil_eq_iff.mpr ⟨h1, h2⟩]

theorem rhe_intCast (z : ℤ) : rhe ((z : ℚ)) = z := by
  unfold rhe
  rw [Int.fract_intCast]
  rw [if_neg (by norm_num)]
  rw [round_intCast]

theorem roundTo1_int (z : ℤ) (q : ℚ) (h : q * 10 = (z : ℚ)) :
    roundTo1 q = (z : ℚ) / 10 := by
  unfold roundTo1
  rw [h, rhe_intCast]

theorem crs_isSome (d c : ℚ) (pl dl : String) (hd0 : 0 ≤ d) :
    (calculate_route_stops d c pl dl).isSome = true := by
  unfold calculate_route_stops
  have h := loopGo_isSome d (planFuel d) d c 0 0 (by unfold planFuel; omega)
  rw [Option.isSome_iff_exists] at h
  obtain ⟨⟨st, dr⟩, hval⟩ := h
  rw [hval]
  rfl

theorem crs_inv (d c : ℚ) (pl dl : String) (stops : List Stop)
    (h : calculate_route_stops d c pl dl = some stops) :
    ∃ st dr, loopGo d (planFuel d) d c 0 0 = some (st, dr) ∧
      stops = pickupStop pl :: (st ++ [dropoffStop dl d]) := by
  unfold calculate_route_stops at h
  cases heq : loopGo d (planFuel d) d c 0 0 with
  | none =>
    rw [heq] at h
    exact absurd h (by simp)
  | some val =>
    obtain ⟨st, dr⟩ := val
    rw [heq] at h
    exact ⟨st, dr, rfl, (Option.some.inj h).symm⟩

theorem crs_zero : calculate_route_stops 0 0 "A" "B" =
    some [pickupStop "A", dropoffStop "B" 0] := by
  unfold calculate_route_stops
  rw [show planFuel 0 = 1 by
    rw [planFuel_eval 0 0 (by norm_num) (by norm_num)]
    rfl]
  simp [loopGo]

/-! ## Claims -/

/-- Claim C1: for every total_distance ≥ 0 and initial_cycle_hours ≥ 0, the
planner's stop sequence exists, starts with a Pickup stop at distance 0, ends
with a Dropoff stop at distance total_distance, and distance_from_start is
non-decreasing along the whole sequence. -/
theorem claim_C1 (d c : ℚ) (pl dl : String) (hd0 : 0 ≤ d) (hc0 : 0 ≤ c) :
    (calculate_route_stops d c pl dl).isSome = true ∧
    ∀ stops, calculate_route_stops d c pl dl = some stops →
      stops.head? = some (pickupStop pl) ∧
      stops.getLast? = some (dropoffStop dl d) ∧
      List.Chain' (fun a b =>
        a.distance_from_start ≤ b.distance_from_start) stops := by
  refine ⟨crs_isSome d c pl dl hd0, ?_⟩
  intro stops hstops
  obtain ⟨st, dr, heq, hlist⟩ := crs_inv d c pl dl stops hstops
  subst hlist
  obtain ⟨hb, hchain⟩ := loopGo_bounds d (planFuel d) d c 0 0 st dr heq
  refine ⟨rfl, ?_, ?_⟩
  · rw [show pickupStop pl :: (st ++ [dropoffStop dl d]) =
      (pickupStop pl :: st) ++ [dropoffStop dl d] from rfl]
    exact List.getLast?_concat _
  · refine List.chain'_cons'.mpr ⟨?_, ?_⟩
    · intro y hy
      have hy2 : y ∈ st ++ [dropoffStop dl d] := List.mem_of_mem_head? hy
      show (pickupStop pl).distance_from_start ≤ y.distance_from_start
      rcases List.mem_append.mp hy2 with hm | hm
      · have := (hb y hm).1
        show (0 : ℚ) ≤ y.distance_from_start
        linarith
      · simp at hm
        subst hm
        show (0 : ℚ) ≤ d
        exact hd0
    · exact chain_append_singleton st (dropoffStop dl d)
        (fun s hs => (hb s hs).2.le) hchain

/-- Claim C1 witness at total_distance 100, initial cycle hours 0. -/
theorem claim_C1_witness :
    (calculate_route_stops 100 0 "A" "B").isSome = true ∧
    ∀ stops, calculate_route_stops 100 0 "A" "B" = some stops →
      stops.head? = some (pickupStop "A") ∧
      stops.getLast? = some (dropoffStop "B" 100) ∧
      List.Chain' (fun a b =>
        a.distance_from_start ≤ b.distance_from_start) stops :=
  claim_C1 100 0 "A" "B" (by norm_num) (le_refl 0)

/-- Claim C2 counterexample: at total_distance = -1 the planner does not fail;
it returns the two-stop sequence Pickup, Dropoff.  The claimed InvalidInput
failure mode does not exist in the code. -/
theorem claim_C2_counterexample :
    calculate_route_stops (-1) 0 "A" "B" =
      some [pickupStop "A", dropoffStop "B" (-1)] := by
  unfold calculate_route_stops
  rw [show planFuel (-1) = 1 by
    rw [planFuel_eval (-1) 0 (by norm_num) (by norm_num)]
    rfl]
  norm_num [loopGo]

/-- Claim C2 amended: the planner performs no input validation and has no
failure mode at all.  For total_distance < 0 the driving loop is skipped and
the result is the two-stop sequence Pickup at 0, Dropoff at total_distance;
for total_distance ≥ 0 it likewise always returns a full stop sequence. -/
theorem claim_C2_amended (d c : ℚ) (pl dl : String) :
    (d < 0 → calculate_route_stops d c pl dl =
      some [pickupStop pl, dropoffStop dl d]) ∧
    (0 ≤ d → (calculate_route_stops d c pl dl).isSome = true) := by
  constructor
  · intro hd
    unfold calculate_route_stops
    have hloop : loopGo d (planFuel d) d c 0 0 = some ([], []) := by
      cases hn : planFuel d with
      | zero =>
        exfalso
        unfold planFuel at hn
        omega
      | succ n =>
        show loopGo d (n + 1) d c 0 0 = some ([], [])
        simp [loopGo, not_lt.mpr hd.le]
    rw [hloop]
    rfl
  · intro hd
    exact crs_isSome d c pl dl hd

/-- Claim C2 witness: a valid input on which the amended totality claim is
discharged concretely. -/
theorem claim_C2_witness : (calculate_route_stops 5 0 "A" "B").isSome = true :=
  (claim_C2_amended 5 0 "A" "B").2 (by norm_num)

/-- Claim C3 counterexample: with initial_cycle_hours = 10.5 and
total_distance = 100 the planner emits no Rest stop at all: the result is
exactly Pickup then Dropoff, and no stop whose type contains "Rest" exists. -/
theorem claim_C3_counterexample :
    calculate_route_stops 100 (21/2) "A" "B" =
      some [pickupStop "A", dropoffStop "B" 100] ∧
    ((calculate_route_stops 100 (21/2) "A" "B").getD []).countP
      (fun s => strContainsStr s.type "Rest") = 0 := by
  have hmain : calculate_route_stops 100 (21/2) "A" "B" =
      some [pickupStop "A", dropoffStop "B" 100] := by
    unfold calculate_route_stops
    rw [show planFuel 100 = 2 by
      rw [planFuel_eval 100 1 (by norm_num) (by norm_num)]
      rfl]
    norm_num [loopGo, min_def]
  refine ⟨hmain, ?_⟩
  rw [hmain]
  rfl

/-- Claim C3 amended: with initial_cycle_hours = 10.5 and total_distance =
100 the rest check (current_cycle_hours ≥ 11) is evaluated only before a
drive segment; at the single check the counter is still 10.5, the loop exits
right after the only segment, and no Rest stop is inserted: the result is
exactly Pickup at 0, Dropoff at 100. -/
theorem claim_C3_amended (pl dl : String) :
    calculate_route_stops 100 (21/2) pl dl =
      some [pickupStop pl, dropoffStop dl 100] ∧
    ((calculate_route_stops 100 (21/2) pl dl).getD []).countP
      (fun s => strContainsStr s.type "Rest") = 0 := by
  have hmain : calculate_route_stops 100 (21/2) pl dl =
      some [pickupStop pl, dropoffStop dl 100] := by
    unfold calculate_route_stops
    rw [show planFuel 100 = 2 by
      rw [planFuel_eval 100 1 (by norm_num) (by norm_num)]
      rfl]
    norm_num [loopGo, min_def]
  refine ⟨hmain, ?_⟩
  rw [hmain]
  rfl

/-- Claim C4: at total_distance = 500 and initial_cycle_hours = 0 the planner
produces no Rest stop, exactly one Break stop (at mile 480) and zero Fuel
Stops. -/
theorem claim_C4 :
    calculate_route_stops 500 0 "A" "B" =
      some [pickupStop "A", ⟨"30-min Break", none, 1/2, 480⟩,
        dropoffStop "B" 500] ∧
    ((calculate_route_stops 500 0 "A" "B").getD []).countP
      (fun s => s.type == "10-hour Rest") = 0 ∧
    ((calculate_route_stops 500 0 "A" "B").getD []).countP
      (fun s => s.type == "30-min Break") = 1 ∧
    ((calculate_route_stops 500 0 "A" "B").getD []).countP
      (fun s => s.type == "Fuel Stop") = 0 := by
  have hmain : calculate_route_stops 500 0 "A" "B" =
      some [pickupStop "A", ⟨"30-min Break", none, 1/2, 480⟩,
        dropoffStop "B" 500] := by
    unfold calculate_route_stops
    rw [show planFuel 500 = 6 by
      rw [planFuel_eval 500 5 (by norm_num) (by norm_num)]
      rfl]
    norm_num [loopGo, min_def]
  refine ⟨hmain, ?_, ?_, ?_⟩ <;> rw [hmain] <;> rfl

/-- Claim C5: at total_distance = 0 the planner returns exactly Pickup at 0
then Dropoff at 0, and the log generator applied to them returns exactly two
entries with statuses ON, ON. -/
theorem claim_C5 :
    calculate_route_stops 0 0 "A" "B" =
      some [pickupStop "A", dropoffStop "B" 0] ∧
    (generate_eld_logs [pickupStop "A", dropoffStop "B" 0] 0 0).length = 2 ∧
    (generate_eld_logs [pickupStop "A", dropoffStop "B" 0] 0 0).map
      (fun e => e.status) = ["ON", "ON"] := by
  refine ⟨crs_zero, ?_, ?_⟩
  · unfold generate_eld_logs
    rw [genLogsGo_length]
    rfl
  · unfold generate_eld_logs
    rw [genLogsGo_status]
    rfl

/-- Claim C6: for every total_distance ≥ 0 and any initial cycle hours, the
per-iteration drive_hours values of the planning loop, each multiplied by 60,
sum exactly to total_distance in exact rational arithmetic. -/
theorem claim_C6 (d c : ℚ) (h : 0 ≤ d) :
    ∀ st dr, loopGo d (planFuel d) d c 0 0 = some (st, dr) →
      (dr.map (fun x => x * 60)).sum = d := by
  intro st dr heq
  exact loopGo_sum d (planFuel d) d c 0 0 st dr h heq

/-- Claim C6 witness: at total_distance 240 the loop drives 2 h twice and
2·60 + 2·60 = 240. -/
theorem claim_C6_witness :
    (([2, 2] : List ℚ).map (fun x => x * 60)).sum = 240 := by
  refine claim_C6 240 0 (by norm_num) [] [2, 2] ?_
  rw [show planFuel 240 = 3 by
    rw [planFuel_eval 240 2 (by norm_num) (by norm_num)]
    rfl]
  norm_num [loopGo, min_def]

/-- Claim C7: the planning loop terminates for every total_distance ≥ 0 and
initial_cycle_hours ≥ 0: the drive amount is strictly positive whenever
remaining distance is positive, the remaining distance strictly decreases
each iteration, and the planner returns a result within its iteration
budget. -/
theorem claim_C7 (d c : ℚ) (pl dl : String) (hd0 : 0 ≤ d) (hc0 : 0 ≤ c) :
    (∀ r : ℚ, 0 < r →
      0 < min 2 (r / 60) ∧ r - min 2 (r / 60) * 60 < r) ∧
    (calculate_route_stops d c pl dl).isSome = true := by
  constructor
  · intro r hr
    refine ⟨lt_min (by norm_num) (by positivity), next_r_lt r hr⟩
  · exact crs_isSome d c pl dl hd0

/-- Claim C7 witness at total_distance 100, initial cycle hours 0. -/
theorem claim_C7_witness :
    (∀ r : ℚ, 0 < r →
      0 < min 2 (r / 60) ∧ r - min 2 (r / 60) * 60 < r) ∧
    (calculate_route_stops 100 0 "A" "B").isSome = true :=
  claim_C7 100 0 "A" "B" (by norm_num) (le_refl 0)

/-- Claim C8 counterexample: for a stop sequence containing a stop with a
negative duration, the recorded hours_driven values decrease: the claim as
stated quantifies over every stop sequence, and fails on this one. -/
theorem claim_C8_counterexample :
    ¬ List.Chain' (fun a b => a.hours_driven ≤ b.hours_driven)
      (generate_eld_logs
        [⟨"Pickup", some "X", -5, 0⟩, ⟨"Dropoff", some "Y", 1, 0⟩] 0 0) := by
  intro h
  unfold generate_eld_logs at h
  simp only [genLogsGo] at h
  rw [List.chain'_cons] at h
  have h1 : roundTo1 (0 : ℚ) ≤ roundTo1 ((0 : ℚ) + (-5)) := h.1
  have e1 : roundTo1 (0 : ℚ) = ((0 : ℤ) : ℚ) / 10 :=
    roundTo1_int 0 0 (by norm_num)
  have e2 : roundTo1 ((0 : ℚ) + (-5)) = ((-50 : ℤ) : ℚ) / 10 :=
    roundTo1_int (-50) (0 + (-5)) (by norm_num)
  rw [e1, e2] at h1
  norm_num at h1

/-- Claim C8 amended: for every stop sequence whose durations are all
non-negative (as all planner-produced stops are) and every
initial_cycle_hours, the log generator emits exactly one entry per stop in
the same order (same length, remarks in stop order), the recorded
hours_driven values are the rounded running counter that starts at
initial_cycle_hours and gains each non-Rest stop's duration while Rest stops
add nothing and never reset it, and hours_driven never decreases across
consecutive entries. -/
theorem claim_C8_amended (stops : List Stop) (td ic : ℚ)
    (h : ∀ s ∈ stops, 0 ≤ s.duration) :
    (generate_eld_logs stops td ic).length = stops.length ∧
    (generate_eld_logs stops td ic).map (fun e => e.remarks) =
      stops.map (fun s => s.type) ∧
    (generate_eld_logs stops td ic).map (fun e => e.hours_driven) =
      (List.range stops.length).map
        (fun i => roundTo1 (hoursBefore ic stops i)) ∧
    List.Chain' (fun a b => a.hours_driven ≤ b.hours_driven)
      (generate_eld_logs stops td ic) := by
  unfold generate_eld_logs
  exact ⟨genLogsGo_length stops 0 ic, genLogsGo_remarks stops 0 ic,
    genLogsGo_hours stops 0 ic, genLogsGo_chain stops 0 ic h⟩

/-- Claim C8 witness: the amended claim applied to the concrete two-stop
sequence of a zero-distance trip. -/
theorem claim_C8_witness :
    List.Chain' (fun a b => a.hours_driven ≤ b.hours_driven)
      (generate_eld_logs [pickupStop "A", dropoffStop "B" 0] 0 0) :=
  (claim_C8_amended [pickupStop "A", dropoffStop "B" 0] 0 0
    (by
      intro s hs
      simp only [List.mem_cons, List.not_mem_nil, or_false] at hs
      rcases hs with h | h <;> subst h
      · norm_num [pickupStop]
      · norm_num [dropoffStop])).2.2.2

/-- Claim C9: the status mapping sends 10-hour Rest to OFF, 30-min Break to
SB, Pickup, Dropoff and Fuel Stop to ON, and any other type string (one that
contains neither "Rest", "Break" nor "Fuel" and is not Pickup or Dropoff) to
D; and on any stop sequence the planner produces, no generated log entry has
status D. -/
theorem claim_C9 :
    get_status_from_stop "10-hour Rest" = "OFF" ∧
    get_status_from_stop "30-min Break" = "SB" ∧
    get_status_from_stop "Pickup" = "ON" ∧
    get_status_from_stop "Dropoff" = "ON" ∧
    get_status_from_stop "Fuel Stop" = "ON" ∧
    (∀ t : String, strContainsStr t "Rest" = false →
      strContainsStr t "Break" = false → t ∉ ["Pickup", "Dropoff"] →
      strContainsStr t "Fuel" = false → get_status_from_stop t = "D") ∧
    (∀ (d c : ℚ) (pl dl : String) (stops : List Stop),
      calculate_route_stops d c pl dl = some stops →
      ∀ e ∈ generate_eld_logs stops d c, e.status ≠ "D") := by
  refine ⟨rfl, rfl, rfl, rfl, rfl, ?_, ?_⟩
  · intro t h1 h2 h3 h4
    unfold get_status_from_stop
    rw [h1, h2, h4]
    simp [h3]
  · intro d c pl dl stops hcrs e he
    have hmap : (generate_eld_logs stops d c).map (fun x => x.status) =
        stops.map (fun s => get_status_from_stop s.type) := by
      unfold generate_eld_logs
      exact genLogsGo_status stops 0 c
    have hmem : e.status ∈ stops.map (fun s => get_status_from_stop s.type) := by
      rw [← hmap]
      exact List.mem_map_of_mem _ he
    obtain ⟨s, hs, hstat⟩ := List.mem_map.mp hmem
    rw [← hstat]
    obtain ⟨st, dr, heq, hlist⟩ := crs_inv d c pl dl stops hcrs
    subst hlist
    rcases List.mem_cons.mp hs with hp | hs2
    · subst hp
      have hon : get_status_from_stop (pickupStop pl).type = "ON" := rfl
      rw [hon]
      decide
    rcases List.mem_append.mp hs2 with hmid | hlast
    · rcases loopGo_types d (planFuel d) d c 0 0 st dr heq s hmid with
        h | h | h <;> rw [h] <;> decide
    · rw [List.mem_singleton.mp hlast]
      have hon : get_status_from_stop (dropoffStop dl d).type = "ON" := rfl
      rw [hon]
      decide

/-- Claim C9 witness: the catch-all branch of the status mapping fires on a
type string outside the planner's stop set. -/
theorem claim_C9_witness : get_status_from_stop "Driving" = "D" :=
  claim_C9.2.2.2.2.2.1 "Driving" rfl rfl (by decide) rfl

/-- Claim C10: on every planner output for total_distance ≥ 0 and
initial_cycle_hours ≥ 0, consecutive Fuel Stops (measured from the trip
start, represented by the virtual origin at distance 0) are separated by at
least 1000 and strictly less than 1120 miles, and every stop other than
Pickup and Dropoff lies strictly before total_distance. -/
theorem claim_C10 (d c : ℚ) (pl dl : String) (hd0 : 0 ≤ d) (hc0 : 0 ≤ c) :
    ∀ stops, calculate_route_stops d c pl dl = some stops →
      List.Chain (fun a b =>
        1000 ≤ b.distance_from_start - a.distance_from_start ∧
        b.distance_from_start - a.distance_from_start < 1120)
        fuelOrigin (stops.filter (fun s => s.type == "Fuel Stop")) ∧
      ∀ s ∈ stops, s.type ≠ "Pickup" → s.type ≠ "Dropoff" →
        s.distance_from_start < d := by
  intro stops hcrs
  obtain ⟨st, dr, heq, hlist⟩ := crs_inv d c pl dl stops hcrs
  subst hlist
  constructor
  · have hfilter : (pickupStop pl :: (st ++ [dropoffStop dl d])).filter
        (fun s => s.type == "Fuel Stop") =
        st.filter (fun s => s.type == "Fuel Stop") := by
      rw [List.filter_cons, List.filter_append]
      rw [show ((pickupStop pl).type == "Fuel Stop") = false from rfl]
      rw [show ([dropoffStop dl d].filter (fun s => s.type == "Fuel Stop")) =
        [] from rfl]
      simp
    rw [hfilter]
    exact loopGo_fuel_chain d (planFuel d) d c 0 0 st dr fuelOrigin heq
      (by
        show (0 : ℚ) = (d - d) - fuelOrigin.distance_from_start
        show (0 : ℚ) = (d - d) - 0
        ring)
      (by norm_num)
  · intro s hs h1 h2
    rcases List.mem_cons.mp hs with hp | hs2
    · exfalso
      apply h1
      rw [hp]
      rfl
    rcases List.mem_append.mp hs2 with hmid | hlast
    · exact ((loopGo_bounds d (planFuel d) d c 0 0 st dr heq).1 s hmid).2
    · exfalso
      apply h2
      rw [List.mem_singleton.mp hlast]
      rfl

/-- Claim C10 witness: the fuel-spacing chain and strict-bound statement
instantiated on the zero-distance trip, whose planner output has no Fuel
Stops. -/
theorem claim_C10_witness :
    List.Chain (fun a b =>
      1000 ≤ b.distance_from_start - a.distance_from_start ∧
      b.distance_from_start - a.distance_from_start < 1120)
      fuelOrigin
      (([pickupStop "A", dropoffStop "B" 0]).filter
        (fun s => s.type == "Fuel Stop")) ∧
    ∀ s ∈ [pickupStop "A", dropoffStop "B" 0],
      s.type ≠ "Pickup" → s.type ≠ "Dropoff" →
      s.distance_from_start < 0 :=
  claim_C10 0 0 "A" "B" (le_refl 0) (le_refl 0)
    [pickupStop "A", dropoffStop "B" 0] crs_zero
